import Mathlib

/-!
# VPA trading strategy: shallow embedding

Shallow embedding of the core of `src/vpa_coulling.py` / `src/vpa_etf_daily.py`
(the two files contain the same classifier / backtest / metrics pipeline):

* `classifyAt` / `detect_vpa_anomalies` embed `detect_vpa_anomalies`
  (pandas rolling-window quantiles with linear interpolation, strict
  comparisons; a comparison against an undefined (NaN) percentile is `false`,
  matching pandas `x > NaN = False`).
* `btStep` / `stateUpTo` / `backtestState` / `backtest_vpa` embed the
  `backtest_vpa` loop (`for i in range(1, len(data))`).
* `total_ret_of` / `cagr_of` / `vol_of` / `sharpe_of` / `calc_metrics` embed
  `calc_metrics`.

Prices and volumes are ℚ (the Python floats are treated as exact reals; only
`CAGR`, volatility and Sharpe, which use `**`/`sqrt`, live in ℝ).
-/

/-- One OHLCV bar.  `name` is the row label (the timestamp index of the
pandas DataFrame), modelled as an integer date. -/
structure Bar where
  name : ℤ
  Open : ℚ
  High : ℚ
  Low : ℚ
  Close : ℚ
  Volume : ℚ
deriving DecidableEq, Repr

def dummyBar : Bar := ⟨0, 0, 0, 0, 0, 0⟩

/-- `data['Spread'] = (data['High'] - data['Low']).abs()` -/
def spreadOf (b : Bar) : ℚ := |b.High - b.Low|

/-- `data['Body'] = data['Close'] - data['Open']` -/
def bodyOf (b : Bar) : ℚ := b.Close - b.Open

/-- Linear interpolation at position `q*(n-1)` of the ascending order
statistics `s` of an `n`-element sample. -/
def interp (q : ℚ) (s : List ℚ) (n : ℕ) : ℚ :=
  let h : ℚ := q * ((n : ℚ) - 1)
  let k : ℕ := (Int.floor h).toNat
  let a : ℚ := s.getD k 0
  let b : ℚ := s.getD (k + 1) a
  a + (h - (k : ℚ)) * (b - a)

/-- Linear-interpolation ("R-7") quantile of a list, as used by
`Series.rolling(...).quantile(q)` with the default `interpolation='linear'`:
sort ascending, take position `q*(n-1)` and interpolate linearly between the
two neighbouring order statistics.  `none` on the empty list (NaN). -/
def quantileLinear (q : ℚ) (xs : List ℚ) : Option ℚ :=
  match xs with
  | [] => none
  | _ :: _ => some (interp q (List.insertionSort (· ≤ ·) xs) xs.length)

/-- `Series.rolling(lookback).quantile(q)` evaluated at index `i`: the window
is the `lookback` values ending at (and including) index `i`; NaN (`none`)
while the window is incomplete (`min_periods` defaults to the window size). -/
def rollingQuantile (lookback : ℕ) (q : ℚ) (xs : List ℚ) (i : ℕ) : Option ℚ :=
  if 1 ≤ lookback ∧ lookback ≤ i + 1 then
    quantileLinear q ((xs.drop (i + 1 - lookback)).take lookback)
  else none

/-- pandas `x > p` where `p` may be NaN: `False` when `p` is NaN. -/
def gtQ (x : ℚ) : Option ℚ → Bool
  | none => false
  | some p => decide (p < x)

/-- pandas `x < p` where `p` may be NaN: `False` when `p` is NaN. -/
def ltQ (x : ℚ) : Option ℚ → Bool
  | none => false
  | some p => decide (x < p)

/-- One row of the classified DataFrame returned by `detect_vpa_anomalies`
(the columns the rest of the pipeline reads). -/
structure CBar where
  name : ℤ
  Close : ℚ
  Spread : ℚ
  Body : ℚ
  IsUp : Bool
  IsDown : Bool
  Spread_p75 : Option ℚ
  Spread_p25 : Option ℚ
  Vol_p_low : Option ℚ
  Vol_p_high : Option ℚ
  WideSpread : Bool
  NarrowSpread : Bool
  LowVol : Bool
  HighVol : Bool
  Anomaly_FakeUp : Bool
  Anomaly_FakeDown : Bool
  Anomaly_AbsorbUp : Bool
  Anomaly_AbsorbDown : Bool
  Confirm_Up : Bool
  Confirm_Down : Bool
  Signal_Long : Bool
  Signal_Short : Bool
deriving DecidableEq, Repr

def dummyCBar : CBar :=
  ⟨0, 0, 0, 0, false, false, none, none, none, none, false, false, false, false,
   false, false, false, false, false, false, false, false⟩

/-- Row `i` of `detect_vpa_anomalies(df, lookback)`. -/
def classifyAt (lookback : ℕ) (bars : List Bar) (i : ℕ) : CBar :=
  let b := bars.getD i dummyBar
  let spreads := bars.map spreadOf
  let vols := bars.map Bar.Volume
  let sp := spreadOf b
  let sp75 := rollingQuantile lookback (3/4) spreads i
  let sp25 := rollingQuantile lookback (1/4) spreads i
  let vlow := rollingQuantile lookback (1/4) vols i
  let vhigh := rollingQuantile lookback (3/4) vols i
  let isUp := decide (0 < bodyOf b)
  let isDown := decide (bodyOf b < 0)
  let wide := gtQ sp sp75
  let narrow := ltQ sp sp25
  let lowv := ltQ b.Volume vlow
  let highv := gtQ b.Volume vhigh
  { name := b.name, Close := b.Close,
    Spread := sp, Body := bodyOf b, IsUp := isUp, IsDown := isDown,
    Spread_p75 := sp75, Spread_p25 := sp25, Vol_p_low := vlow, Vol_p_high := vhigh,
    WideSpread := wide, NarrowSpread := narrow, LowVol := lowv, HighVol := highv,
    Anomaly_FakeUp := isUp && wide && lowv,
    Anomaly_FakeDown := isDown && wide && lowv,
    Anomaly_AbsorbUp := isUp && narrow && highv,
    Anomaly_AbsorbDown := isDown && narrow && highv,
    Confirm_Up := isUp && wide && highv,
    Confirm_Down := isDown && wide && highv,
    Signal_Long := (isDown && wide && lowv) || (isDown && narrow && highv),
    Signal_Short := (isUp && wide && lowv) || (isUp && narrow && highv) }

/-- `detect_vpa_anomalies(df, lookback)`: one classified row per input bar. -/
def detect_vpa_anomalies (lookback : ℕ) (bars : List Bar) : List CBar :=
  (List.range bars.length).map (classifyAt lookback bars)

/-- `'LONG' if position == 1 else 'SHORT'` -/
inductive Direction where
  | LONG
  | SHORT
deriving DecidableEq, Repr

/-- One completed round trip appended to `trades`. -/
structure Trade where
  entry_date : Option ℤ
  exit_date : ℤ
  direction : Direction
  bars_held : ℕ
deriving DecidableEq, Repr

/-- `mode` parameter of `backtest_vpa`. -/
inductive Mode where
  | long_only
  | short_only
  | long_short
deriving DecidableEq, Repr

/-- The fields of a classified row that the backtest loop reads:
`row.name`, `row['Return']`, and the previous bar's signals. -/
structure SRow where
  name : ℤ
  ret : ℚ
  sl : Bool
  ss : Bool
deriving DecidableEq, Repr

def dummySRow : SRow := ⟨0, 0, false, false⟩

/-- `pct_change` of one step; the position-0 NaN (and a 0/0 NaN) is filled
with 0 by `.fillna(0.0)`.  (For `prev = 0, cur ≠ 0` pandas would produce
`inf`; on this pipeline's inputs that case is unreachable: prices are
positive per the data contract, and a zero equity point forces all later
equity points to be zero as well.) -/
def pctc (p c : ℚ) : ℚ := if p = 0 then 0 else c / p - 1

/-- Row `j` of the classified frame as the loop sees it, with
`data['Return'] = data['Close'].pct_change().fillna(0.0)`. -/
def mkRowAt (data : List CBar) (j : ℕ) : SRow :=
  { name := (data.getD j dummyCBar).name,
    ret := if j = 0 then 0
           else pctc (data.getD (j - 1) dummyCBar).Close (data.getD j dummyCBar).Close,
    sl := (data.getD j dummyCBar).Signal_Long,
    ss := (data.getD j dummyCBar).Signal_Short }

def mkRows (data : List CBar) : List SRow :=
  (List.range data.length).map (mkRowAt data)

/-- The loop state of `backtest_vpa`.  `equityRev` is the `equity` list with
the most recent point first. -/
structure BTState where
  equityRev : List ℚ
  position : ℤ
  bars_held : ℕ
  entry_date : Option ℤ
  trades : List Trade
deriving DecidableEq, Repr

def initBTState (initial_equity : ℚ) : BTState :=
  ⟨[initial_equity], 0, 0, none, []⟩

/-- One iteration of the `for i in range(1, len(data))` body of
`backtest_vpa`: accrue PnL, exit after the hold period (before the entry
check), then enter from the previous bar's signal, then append the new
equity point. -/
def btStep (hold_bars : ℕ) (cost : ℚ) (mode : Mode) (prev r : SRow) (st : BTState) : BTState :=
  let pnl0 : ℚ := if st.position ≠ 0 then (st.position : ℚ) * r.ret else 0
  let held1 : ℕ := if st.position ≠ 0 then st.bars_held + 1 else st.bars_held
  let pnl1 : ℚ := if st.position ≠ 0 ∧ hold_bars ≤ held1 then pnl0 - cost else pnl0
  let trades1 : List Trade :=
    if st.position ≠ 0 ∧ hold_bars ≤ held1 then
      st.trades ++ [⟨st.entry_date, r.name,
                     if st.position = 1 then Direction.LONG else Direction.SHORT, held1⟩]
    else st.trades
  let pos1 : ℤ := if st.position ≠ 0 ∧ hold_bars ≤ held1 then 0 else st.position
  let held2 : ℕ := if st.position ≠ 0 ∧ hold_bars ≤ held1 then 0 else held1
  -- `if position == 0:` / `if prev Long ...:` / `elif prev Short ...:`
  -- (`entry` is the new position when an entry fires, `none` otherwise)
  let entry : Option ℤ :=
    if pos1 = 0 then
      if prev.sl = true ∧ (mode = Mode.long_only ∨ mode = Mode.long_short) then some 1
      else if prev.ss = true ∧ (mode = Mode.short_only ∨ mode = Mode.long_short) then some (-1)
      else none
    else none
  let pnl2 : ℚ := if entry.isSome then pnl1 - cost else pnl1
  { equityRev := (st.equityRev.headD 0 * (1 + pnl2)) :: st.equityRev,
    position := entry.getD pos1,
    bars_held := if entry.isSome then 0 else held2,
    entry_date := if entry.isSome then some r.name else st.entry_date,
    trades := trades1 }

/-- Loop iteration `i = k` (uses `row = data.iloc[k]`, `prev_row = data.iloc[k-1]`). -/
def stepAt (hold_bars : ℕ) (cost : ℚ) (mode : Mode) (rows : List SRow) (k : ℕ)
    (st : BTState) : BTState :=
  btStep hold_bars cost mode (rows.getD (k - 1) dummySRow) (rows.getD k dummySRow) st

/-- State after the loop has processed iterations `i = 1 .. k` (iterations
with `i ≥ len(data)` never run). -/
def stateUpTo (hold_bars : ℕ) (cost initial_equity : ℚ) (mode : Mode)
    (rows : List SRow) : ℕ → BTState
  | 0 => initBTState initial_equity
  | k + 1 =>
    if k + 1 < rows.length then
      stepAt hold_bars cost mode rows (k + 1)
        (stateUpTo hold_bars cost initial_equity mode rows k)
    else stateUpTo hold_bars cost initial_equity mode rows k

/-- Final loop state of `backtest_vpa` on a classified series. -/
def backtestState (hold_bars : ℕ) (cost initial_equity : ℚ) (mode : Mode)
    (data : List CBar) : BTState :=
  let rows := mkRows data
  stateUpTo hold_bars cost initial_equity mode rows (data.length - 1)

/-- `pd.Series(equity).pct_change().fillna(0.0)` (see `pctc` for the NaN
conventions). -/
def pctChangeFill : List ℚ → List ℚ
  | [] => []
  | x :: xs => 0 :: pctChangeGo x xs
where
  pctChangeGo : ℚ → List ℚ → List ℚ
    | _, [] => []
    | p, c :: cs => pctc p c :: pctChangeGo c cs

/-- What `backtest_vpa` returns: the data frame's added columns and the
trade list. -/
structure BTResult where
  equity : List ℚ
  strategyReturn : List ℚ
  trades : List Trade
deriving DecidableEq, Repr

/-- `backtest_vpa(df, hold_bars, cost, initial_equity, mode)`.  On an empty
input frame the assignment `data['Equity'] = equity` raises a pandas
`ValueError` (a 1-element list against a 0-row frame); this is the `.error`
case.  There is no other validation anywhere in the function. -/
def backtest_vpa (hold_bars : ℕ) (cost initial_equity : ℚ) (mode : Mode)
    (data : List CBar) : Except String BTResult :=
  if data.isEmpty then
    .error "Length of values (1) does not match length of index (0)"
  else
    let st := backtestState hold_bars cost initial_equity mode data
    .ok { equity := st.equityRev.reverse,
          strategyReturn := pctChangeFill st.equityRev.reverse,
          trades := st.trades }

/-- `eq.iloc[-1] / eq.iloc[0] - 1.0` -/
def total_ret_of (eq : List ℚ) : ℚ := eq.getLastD 0 / eq.headD 0 - 1

def listMean (xs : List ℚ) : ℚ := xs.sum / (xs.length : ℚ)

/-- Sample variance with `ddof = 1` (the pandas `.std()` default squared). -/
def sampleVar (xs : List ℚ) : ℚ :=
  ((xs.map (fun x => (x - listMean xs) ^ 2)).sum) / ((xs.length : ℚ) - 1)

/-- pandas `Series.std()`: sample standard deviation, NaN (`none`) when the
series has fewer than two points. -/
noncomputable def stdSample (xs : List ℚ) : Option ℝ :=
  if 2 ≤ xs.length then some (Real.sqrt ((sampleVar xs : ℚ) : ℝ)) else none

/-- `cagr = (1.0 + total_ret) ** (252.0 / n_days) - 1.0 if n_days > 0 else 0` -/
noncomputable def cagr_of (eq rets : List ℚ) : ℝ :=
  if 0 < rets.length then
    (1 + ((total_ret_of eq : ℚ) : ℝ)) ^ ((252 : ℝ) / (rets.length : ℝ)) - 1
  else 0

/-- `vol = rets.std() * math.sqrt(252)` (NaN when `rets.std()` is NaN). -/
noncomputable def vol_of (rets : List ℚ) : Option ℝ :=
  (stdSample rets).map (fun s => s * Real.sqrt 252)

/-- `sharpe = cagr / vol if vol > 0 else 0`; a NaN `vol` fails `vol > 0`,
so Sharpe is 0 then as well. -/
noncomputable def sharpe_of (eq rets : List ℚ) : ℝ :=
  match vol_of rets with
  | some v => if 0 < v then cagr_of eq rets / v else 0
  | none => 0

/-- Running maximum, `Series.cummax()`. -/
def cummaxGo : ℚ → List ℚ → List ℚ
  | _, [] => []
  | m, x :: xs => max m x :: cummaxGo (max m x) xs

def cummax : List ℚ → List ℚ
  | [] => []
  | x :: xs => x :: cummaxGo x xs

def listMin (l : List ℚ) : ℚ := l.foldr min (l.headD 0)

/-- `max_dd = (eq / eq.cummax() - 1.0).min()` -/
def maxDD_of (eq : List ℚ) : ℚ :=
  listMin ((eq.zip (cummax eq)).map (fun p => p.1 / p.2 - 1))

/-- The record `calc_metrics` returns (the `vpa_etf_daily.py` variant
returns it as a dict; `vpa_coulling.py` only prints the same numbers). -/
structure Metrics where
  Trades : ℕ
  TotalRet : ℚ
  CAGR : ℝ
  Vol : Option ℝ
  Sharpe : ℝ
  MaxDD : ℚ

/-- `calc_metrics(data, trades, ...)`.  On an empty frame `eq.iloc[-1]`
raises an `IndexError` before anything else runs; this is the `.error`
case (so the `n_days > 0` guard in the CAGR line can never actually be
reached with `n_days == 0`). -/
noncomputable def calc_metrics (eq rets : List ℚ) (trades : List Trade) :
    Except String Metrics :=
  if eq.isEmpty then
    .error "single positional indexer is out-of-bounds"
  else
    .ok { Trades := trades.length,
          TotalRet := total_ret_of eq,
          CAGR := cagr_of eq rets,
          Vol := vol_of rets,
          Sharpe := sharpe_of eq rets,
          MaxDD := maxDD_of eq }

/-- Number of anomaly categories that hold on one classified bar. -/
def catCount (cb : CBar) : ℕ :=
  (if cb.Anomaly_FakeUp then 1 else 0) + (if cb.Anomaly_FakeDown then 1 else 0) +
  (if cb.Anomaly_AbsorbUp then 1 else 0) + (if cb.Anomaly_AbsorbDown then 1 else 0) +
  (if cb.Confirm_Up then 1 else 0) + (if cb.Confirm_Down then 1 else 0)


/-- The part of the simulator state that carries the position decisions
(everything except the equity curve). -/
structure PosState where
  position : ℤ
  bars_held : ℕ
  entry_date : Option ℤ
  trades : List Trade
deriving DecidableEq, Repr

def posProj (st : BTState) : PosState :=
  ⟨st.position, st.bars_held, st.entry_date, st.trades⟩


/-- Trade `t` is the round trip entered on bar `e` and exited on bar
`e + hold_bars` of the row list. -/
def TradeAt (hold_bars : ℕ) (rows : List SRow) (e : ℕ) (t : Trade) : Prop :=
  1 ≤ e ∧ e + hold_bars < rows.length ∧
  t.entry_date = some ((rows.getD e dummySRow).name) ∧
  t.exit_date = (rows.getD (e + hold_bars) dummySRow).name ∧
  t.bars_held = hold_bars

/-- Invariant of the backtest loop after iterations `1..k`: every recorded
trade is a completed fixed-horizon round trip inside the processed prefix,
and an open position remembers its entry bar, with every recorded exit at
or before that entry bar. -/
def SimInv (hold_bars : ℕ) (rows : List SRow) (k : ℕ) (st : BTState) : Prop :=
  (∀ t ∈ st.trades, ∃ e, TradeAt hold_bars rows e t ∧ e + hold_bars ≤ k) ∧
  (st.position ≠ 0 → ∃ e, 1 ≤ e ∧ e ≤ k ∧ k < e + hold_bars ∧ e < rows.length ∧
    st.entry_date = some ((rows.getD e dummySRow).name) ∧ st.bars_held = k - e ∧
    ∀ t ∈ st.trades, ∃ e2, TradeAt hold_bars rows e2 t ∧ e2 + hold_bars ≤ e)


/-- `WideSpread` exactly as claim C1 words it: strict comparison against
the 75th linear-interpolation percentile of the half-open trailing window
`[i - lookback, i)` that excludes bar `i` itself, and undefined (`none`)
for every `i < lookback`. -/
def claimWideSpread (lookback : ℕ) (bars : List Bar) (i : ℕ) : Option Bool :=
  if lookback ≤ i then
    some (gtQ (spreadOf (bars.getD i dummyBar))
      (quantileLinear (3/4) (((bars.map spreadOf).drop (i - lookback)).take lookback)))
  else none

/-- `WideSpread` as the amended claim words it: strict comparison against
the 75th linear-interpolation percentile of the closed trailing window of
the last `lookback` spreads ending at (and including) bar `i`; the flag is
plain `false` (never null) while the window is incomplete, i.e. for
`i < lookback - 1`. -/
def specWideSpread (lookback : ℕ) (bars : List Bar) (i : ℕ) : Bool :=
  if 1 ≤ lookback ∧ lookback - 1 ≤ i then
    match quantileLinear (3/4) (((bars.map spreadOf).take (i + 1)).drop (i + 1 - lookback)) with
    | some p => decide (p < spreadOf (bars.getD i dummyBar))
    | none => false
  else false

/-- `NarrowSpread` under the amended claim (see `specWideSpread`). -/
def specNarrowSpread (lookback : ℕ) (bars : List Bar) (i : ℕ) : Bool :=
  if 1 ≤ lookback ∧ lookback - 1 ≤ i then
    match quantileLinear (1/4) (((bars.map spreadOf).take (i + 1)).drop (i + 1 - lookback)) with
    | some p => decide (spreadOf (bars.getD i dummyBar) < p)
    | none => false
  else false

/-- `LowVol` under the amended claim (see `specWideSpread`). -/
def specLowVol (lookback : ℕ) (bars : List Bar) (i : ℕ) : Bool :=
  if 1 ≤ lookback ∧ lookback - 1 ≤ i then
    match quantileLinear (1/4) (((bars.map Bar.Volume).take (i + 1)).drop (i + 1 - lookback)) with
    | some p => decide ((bars.getD i dummyBar).Volume < p)
    | none => false
  else false

/-- `HighVol` under the amended claim (see `specWideSpread`). -/
def specHighVol (lookback : ℕ) (bars : List Bar) (i : ℕ) : Bool :=
  if 1 ≤ lookback ∧ lookback - 1 ≤ i then
    match quantileLinear (3/4) (((bars.map Bar.Volume).take (i + 1)).drop (i + 1 - lookback)) with
    | some p => decide (p < (bars.getD i dummyBar).Volume)
    | none => false
  else false


set_option maxRecDepth 8000

/-- Six daily bars (lookback 2, hold 2 in the runs below): bar 1 carries a
FakeDown (Long) signal, bar 2 an AbsorbUp (Short) signal, bar 4 another
FakeDown (Long) signal. -/
def demoBars2 : List Bar :=
  [⟨0, 100, 110, 100, 100, 100⟩,
   ⟨1, 100, 115, 95, 95, 50⟩,
   ⟨2, 95, 105, 95, 100, 80⟩,
   ⟨3, 100, 105, 95, 100, 80⟩,
   ⟨4, 120, 130, 100, 105, 40⟩,
   ⟨5, 105, 110, 100, 105, 60⟩]

/-- `demoBars2` with bar 3's OHLCV replaced (same label). -/
def demoBars2b : List Bar :=
  [⟨0, 100, 110, 100, 100, 100⟩,
   ⟨1, 100, 115, 95, 95, 50⟩,
   ⟨2, 95, 105, 95, 100, 80⟩,
   ⟨3, 50, 200, 40, 45, 999⟩,
   ⟨4, 120, 130, 100, 105, 40⟩,
   ⟨5, 105, 110, 100, 105, 60⟩]

/-- Three bars with spreads 100, 0, 10: bar 2's spread beats the 75th
percentile of the window that includes itself, but not the window that
excludes itself. -/
def c1Bars : List Bar :=
  [⟨0, 100, 200, 100, 150, 10⟩,
   ⟨1, 100, 100, 100, 100, 20⟩,
   ⟨2, 100, 110, 100, 105, 30⟩]

/-- Exactly `lookback = 2` bars; the second bar's volume is above the 75th
percentile of its (complete, self-inclusive) window. -/
def shortBars : List Bar :=
  [⟨0, 100, 110, 100, 100, 100⟩,
   ⟨1, 100, 120, 100, 110, 200⟩]

/-- A structurally malformed series: two bars sharing timestamp `7`. -/
def dupBars : List Bar :=
  [⟨7, 100, 110, 100, 105, 50⟩,
   ⟨7, 100, 110, 100, 105, 50⟩]

/-- Six bars whose only signal is a FakeUp (Short) on bar 1 — no Long
signal anywhere. -/
def noLongBars : List Bar :=
  [⟨0, 100, 110, 100, 100, 100⟩,
   ⟨1, 95, 115, 95, 100, 50⟩,
   ⟨2, 100, 105, 95, 100, 80⟩,
   ⟨3, 100, 105, 95, 100, 80⟩,
   ⟨4, 100, 105, 95, 100, 80⟩,
   ⟨5, 100, 105, 95, 100, 80⟩]


/-! ## Order statistics and quantile monotonicity -/

lemma getD_irrel (s : List ℚ) (d : ℚ) {k : ℕ} (h : k < s.length) :
    s.getD k d = s.getD k 0 := by
  rw [List.getD_eq_getElem s d h, List.getD_eq_getElem s 0 h]

lemma sorted_getD_le {s : List ℚ} (hs : List.Sorted (· ≤ ·) s) {a b : ℕ}
    (hab : a ≤ b) (hb : b < s.length) : s.getD a 0 ≤ s.getD b 0 := by
  have ha : a < s.length := lt_of_le_of_lt hab hb
  rw [List.getD_eq_getElem s 0 ha, List.getD_eq_getElem s 0 hb]
  rcases eq_or_lt_of_le hab with rfl | hlt
  · exact le_refl _
  · have := hs.rel_get_of_lt (a := ⟨a, ha⟩) (b := ⟨b, hb⟩) hlt
    simpa [List.get_eq_getElem] using this

lemma interp_spec (q : ℚ) (s : List ℚ) (n : ℕ) :
    interp q s n =
      s.getD ((Int.floor (q * ((n : ℚ) - 1))).toNat) 0
        + (q * ((n : ℚ) - 1) - (((Int.floor (q * ((n : ℚ) - 1))).toNat : ℕ) : ℚ))
          * (s.getD ((Int.floor (q * ((n : ℚ) - 1))).toNat + 1)
               (s.getD ((Int.floor (q * ((n : ℚ) - 1))).toNat) 0)
             - s.getD ((Int.floor (q * ((n : ℚ) - 1))).toNat) 0) := rfl

lemma interp_mono {s : List ℚ} (hsort : List.Sorted (· ≤ ·) s) {n : ℕ}
    (hslen : s.length = n) (hn : 1 ≤ n) {q1 q2 : ℚ}
    (hq0 : 0 ≤ q1) (hq12 : q1 ≤ q2) (hq1 : q2 ≤ 1) :
    interp q1 s n ≤ interp q2 s n := by
  subst hslen
  have hn1 : (0:ℚ) ≤ (s.length : ℚ) - 1 := by
    have : (1:ℚ) ≤ (s.length : ℚ) := by exact_mod_cast hn
    linarith
  rw [interp_spec, interp_spec]
  set h1 : ℚ := q1 * ((s.length : ℚ) - 1) with hh1
  set h2 : ℚ := q2 * ((s.length : ℚ) - 1) with hh2
  have h10 : 0 ≤ h1 := mul_nonneg hq0 hn1
  have h20 : 0 ≤ h2 := mul_nonneg (le_trans hq0 hq12) hn1
  have h12 : h1 ≤ h2 := mul_le_mul_of_nonneg_right hq12 hn1
  have h2top : h2 ≤ (s.length : ℚ) - 1 := mul_le_of_le_one_left hn1 hq1
  set k1 : ℕ := (Int.floor h1).toNat with hk1v
  set k2 : ℕ := (Int.floor h2).toNat with hk2v
  have hk1c : ((k1 : ℕ) : ℚ) = ((Int.floor h1 : ℤ) : ℚ) := by
    rw [hk1v]; exact_mod_cast congrArg (fun z : ℤ => (z : ℚ))
      (Int.toNat_of_nonneg (Int.floor_nonneg.mpr h10))
  have hk2c : ((k2 : ℕ) : ℚ) = ((Int.floor h2 : ℤ) : ℚ) := by
    rw [hk2v]; exact_mod_cast congrArg (fun z : ℤ => (z : ℚ))
      (Int.toNat_of_nonneg (Int.floor_nonneg.mpr h20))
  have hk1le : ((k1 : ℕ) : ℚ) ≤ h1 := by rw [hk1c]; exact Int.floor_le h1
  have hk1gt : h1 < ((k1 : ℕ) : ℚ) + 1 := by rw [hk1c]; exact Int.lt_floor_add_one h1
  have hk2le : ((k2 : ℕ) : ℚ) ≤ h2 := by rw [hk2c]; exact Int.floor_le h2
  have hk2gt : h2 < ((k2 : ℕ) : ℚ) + 1 := by rw [hk2c]; exact Int.lt_floor_add_one h2
  have hk12 : k1 ≤ k2 := by
    rw [hk1v, hk2v]; exact Int.toNat_le_toNat (Int.floor_le_floor h12)
  have hk2lt : k2 < s.length := by
    have hcast : ((s.length - 1 : ℕ) : ℚ) = (s.length : ℚ) - 1 := Nat.cast_sub hn
    have : ((k2 : ℕ) : ℚ) ≤ ((s.length - 1 : ℕ) : ℚ) := by
      rw [hcast]; exact le_trans hk2le h2top
    have hle : k2 ≤ s.length - 1 := by exact_mod_cast this
    omega
  have hk1lt : k1 < s.length := lt_of_le_of_lt hk12 hk2lt
  set A1 : ℚ := s.getD k1 0 with hA1v
  set A2 : ℚ := s.getD k2 0 with hA2v
  set B1 : ℚ := s.getD (k1+1) A1 with hB1v
  set B2 : ℚ := s.getD (k2+1) A2 with hB2v
  have hA1B1 : A1 ≤ B1 := by
    by_cases hc : k1 + 1 < s.length
    · rw [hB1v, getD_irrel s A1 hc]
      exact sorted_getD_le hsort (Nat.le_succ k1) hc
    · rw [hB1v, List.getD_eq_default s A1 (by omega)]
  have hA2B2 : A2 ≤ B2 := by
    by_cases hc : k2 + 1 < s.length
    · rw [hB2v, getD_irrel s A2 hc]
      exact sorted_getD_le hsort (Nat.le_succ k2) hc
    · rw [hB2v, List.getD_eq_default s A2 (by omega)]
  rcases eq_or_lt_of_le hk12 with heq | hlt
  · have hA : A1 = A2 := by rw [hA1v, hA2v, heq]
    have hB : B1 = B2 := by rw [hB1v, hB2v, heq, hA]
    have hk : ((k1 : ℕ) : ℚ) = ((k2 : ℕ) : ℚ) := by rw [heq]
    rw [← hA, ← hB, hk]
    nlinarith [hA1B1, h12]
  · have hk1n : k1 + 1 < s.length := by omega
    have hB1' : B1 = s.getD (k1+1) 0 := by rw [hB1v]; exact getD_irrel s A1 hk1n
    have hchain : s.getD (k1+1) 0 ≤ s.getD k2 0 := sorted_getD_le hsort hlt hk2lt
    have hv1 : A1 + (h1 - ((k1 : ℕ) : ℚ)) * (B1 - A1) ≤ B1 := by nlinarith [hA1B1]
    have hv2 : A2 ≤ A2 + (h2 - ((k2 : ℕ) : ℚ)) * (B2 - A2) := by nlinarith [hA2B2]
    calc A1 + (h1 - ((k1 : ℕ) : ℚ)) * (B1 - A1) ≤ B1 := hv1
      _ = s.getD (k1+1) 0 := hB1'
      _ ≤ s.getD k2 0 := hchain
      _ = A2 := hA2v.symm
      _ ≤ A2 + (h2 - ((k2 : ℕ) : ℚ)) * (B2 - A2) := hv2

lemma quantileLinear_mono {q1 q2 : ℚ} (hq0 : 0 ≤ q1) (hq12 : q1 ≤ q2) (hq1 : q2 ≤ 1)
    {xs : List ℚ} {a b : ℚ}
    (ha : quantileLinear q1 xs = some a) (hb : quantileLinear q2 xs = some b) :
    a ≤ b := by
  cases xs with
  | nil => simp [quantileLinear] at ha
  | cons x rest =>
    simp only [quantileLinear] at ha hb
    have hsort := List.sorted_insertionSort (· ≤ ·) (x :: rest)
    have hlen : (List.insertionSort (· ≤ ·) (x :: rest)).length = (x :: rest).length :=
      (List.perm_insertionSort (· ≤ ·) (x :: rest)).length_eq
    rw [← Option.some.inj ha, ← Option.some.inj hb]
    exact interp_mono hsort hlen (by simp) hq0 hq12 hq1

lemma rolling_p25_le_p75 {lookback : ℕ} {xs : List ℚ} {i : ℕ} {a b : ℚ}
    (h25 : rollingQuantile lookback (1/4) xs i = some a)
    (h75 : rollingQuantile lookback (3/4) xs i = some b) : a ≤ b := by
  simp only [rollingQuantile] at h25 h75
  split_ifs at h25 h75 with hg
  exact quantileLinear_mono (by norm_num) (by norm_num) (by norm_num) h25 h75

/-! ## C7: the six anomaly categories are mutually exclusive -/

lemma classify_IsUp_IsDown (lookback : ℕ) (bars : List Bar) (i : ℕ) :
    (classifyAt lookback bars i).IsUp = true → (classifyAt lookback bars i).IsDown = false := by
  intro h
  have h1 : (0 : ℚ) < bodyOf (bars.getD i dummyBar) := of_decide_eq_true h
  cases hd : (classifyAt lookback bars i).IsDown with
  | false => rfl
  | true =>
    have h2 : bodyOf (bars.getD i dummyBar) < 0 := of_decide_eq_true hd
    linarith

lemma classify_Wide_Narrow (lookback : ℕ) (bars : List Bar) (i : ℕ) :
    (classifyAt lookback bars i).WideSpread = true →
      (classifyAt lookback bars i).NarrowSpread = false := by
  intro hw
  cases hn : (classifyAt lookback bars i).NarrowSpread with
  | false => rfl
  | true =>
    exfalso
    have hw' : gtQ (spreadOf (bars.getD i dummyBar))
        (rollingQuantile lookback (3/4) (bars.map spreadOf) i) = true := hw
    have hn' : ltQ (spreadOf (bars.getD i dummyBar))
        (rollingQuantile lookback (1/4) (bars.map spreadOf) i) = true := hn
    cases h75 : rollingQuantile lookback (3/4) (bars.map spreadOf) i with
    | none => rw [h75] at hw'; simp [gtQ] at hw'
    | some p75 =>
      cases h25 : rollingQuantile lookback (1/4) (bars.map spreadOf) i with
      | none => rw [h25] at hn'; simp [ltQ] at hn'
      | some p25 =>
        have hle : p25 ≤ p75 := rolling_p25_le_p75 h25 h75
        rw [h75] at hw'; rw [h25] at hn'
        simp only [gtQ, ltQ, decide_eq_true_eq] at hw' hn'
        linarith

lemma classify_Low_High (lookback : ℕ) (bars : List Bar) (i : ℕ) :
    (classifyAt lookback bars i).LowVol = true →
      (classifyAt lookback bars i).HighVol = false := by
  intro hl
  cases hh : (classifyAt lookback bars i).HighVol with
  | false => rfl
  | true =>
    exfalso
    have hl' : ltQ (bars.getD i dummyBar).Volume
        (rollingQuantile lookback (1/4) (bars.map Bar.Volume) i) = true := hl
    have hh' : gtQ (bars.getD i dummyBar).Volume
        (rollingQuantile lookback (3/4) (bars.map Bar.Volume) i) = true := hh
    cases h75 : rollingQuantile lookback (3/4) (bars.map Bar.Volume) i with
    | none => rw [h75] at hh'; simp [gtQ] at hh'
    | some p75 =>
      cases h25 : rollingQuantile lookback (1/4) (bars.map Bar.Volume) i with
      | none => rw [h25] at hl'; simp [ltQ] at hl'
      | some p25 =>
        have hle : p25 ≤ p75 := rolling_p25_le_p75 h25 h75
        rw [h75] at hh'; rw [h25] at hl'
        simp only [gtQ, ltQ, decide_eq_true_eq] at hh' hl'
        linarith

lemma six_flags_le_one : ∀ (u d w nv lv hv : Bool),
    (u = true → d = false) → (w = true → nv = false) → (lv = true → hv = false) →
    ((if u && w && lv then 1 else 0) + (if d && w && lv then 1 else 0) +
     (if u && nv && hv then 1 else 0) + (if d && nv && hv then 1 else 0) +
     (if u && w && hv then 1 else 0) + (if d && w && hv then 1 else 0) : ℕ) ≤ 1 := by
  decide

/-- C7: for every bar of every classified series, at most one of the six
anomaly categories `FakeUp`, `FakeDown`, `AbsorbUp`, `AbsorbDown`,
`ConfirmUp`, `ConfirmDown` is true.  (The directions are mutually exclusive
because `Body > 0` and `Body < 0` are, the spread regimes because the
spread's 25th percentile never exceeds its 75th, and the volume regimes
likewise.) -/
theorem vpa_C7_categories_exclusive (lookback : ℕ) (bars : List Bar) :
    ∀ cb ∈ detect_vpa_anomalies lookback bars, catCount cb ≤ 1 := by
  intro cb hcb
  simp only [detect_vpa_anomalies, List.mem_map] at hcb
  obtain ⟨i, _, rfl⟩ := hcb
  have hFU : (classifyAt lookback bars i).Anomaly_FakeUp =
      ((classifyAt lookback bars i).IsUp && (classifyAt lookback bars i).WideSpread
        && (classifyAt lookback bars i).LowVol) := rfl
  have hFD : (classifyAt lookback bars i).Anomaly_FakeDown =
      ((classifyAt lookback bars i).IsDown && (classifyAt lookback bars i).WideSpread
        && (classifyAt lookback bars i).LowVol) := rfl
  have hAU : (classifyAt lookback bars i).Anomaly_AbsorbUp =
      ((classifyAt lookback bars i).IsUp && (classifyAt lookback bars i).NarrowSpread
        && (classifyAt lookback bars i).HighVol) := rfl
  have hAD : (classifyAt lookback bars i).Anomaly_AbsorbDown =
      ((classifyAt lookback bars i).IsDown && (classifyAt lookback bars i).NarrowSpread
        && (classifyAt lookback bars i).HighVol) := rfl
  have hCU : (classifyAt lookback bars i).Confirm_Up =
      ((classifyAt lookback bars i).IsUp && (classifyAt lookback bars i).WideSpread
        && (classifyAt lookback bars i).HighVol) := rfl
  have hCD : (classifyAt lookback bars i).Confirm_Down =
      ((classifyAt lookback bars i).IsDown && (classifyAt lookback bars i).WideSpread
        && (classifyAt lookback bars i).HighVol) := rfl
  simp only [catCount, hFU, hFD, hAU, hAD, hCU, hCD]
  exact six_flags_le_one _ _ _ _ _ _
    (classify_IsUp_IsDown lookback bars i)
    (classify_Wide_Narrow lookback bars i)
    (classify_Low_High lookback bars i)

/-! ## C6: exit before entry, same-bar re-entry, Long priority -/

/-- C6: on a bar where the hold period expires, the exit is performed first
(the finished round trip is appended to `trades`), and the entry check then
runs on the very same bar from the *previous* bar's signals; with both
lagged signals set under `long_short` mode the Long entry wins. -/
theorem vpa_C6_exit_then_entry (hold_bars : ℕ) (cost : ℚ) (prev r : SRow) (st : BTState)
    (hpos : st.position ≠ 0) (hheld : hold_bars ≤ st.bars_held + 1)
    (hl : prev.sl = true) (hs : prev.ss = true) :
    (btStep hold_bars cost Mode.long_short prev r st).position = 1 ∧
    (btStep hold_bars cost Mode.long_short prev r st).bars_held = 0 ∧
    (btStep hold_bars cost Mode.long_short prev r st).entry_date = some r.name ∧
    (btStep hold_bars cost Mode.long_short prev r st).trades =
      st.trades ++ [⟨st.entry_date, r.name,
        if st.position = 1 then Direction.LONG else Direction.SHORT, st.bars_held + 1⟩] := by
  simp [btStep, hpos, hheld, hl, hs]

/-! ## C5: the position decision on bar `i` ignores bar `i`'s own OHLCV -/

/-- One simulator step decides positions from the previous bar's signals,
the current bar's `name`, and the previous position state only — never from
the current bar's return or the equity curve. -/
lemma btStep_posProj_congr (hold_bars : ℕ) (cost : ℚ) (mode : Mode)
    {p1 p2 r1 r2 : SRow} {st1 st2 : BTState}
    (hsl : p1.sl = p2.sl) (hss : p1.ss = p2.ss) (hname : r1.name = r2.name)
    (hst : posProj st1 = posProj st2) :
    posProj (btStep hold_bars cost mode p1 r1 st1) =
      posProj (btStep hold_bars cost mode p2 r2 st2) := by
  have h1 : st1.position = st2.position := congrArg PosState.position hst
  have h2 : st1.bars_held = st2.bars_held := congrArg PosState.bars_held hst
  have h3 : st1.entry_date = st2.entry_date := congrArg PosState.entry_date hst
  have h4 : st1.trades = st2.trades := congrArg PosState.trades hst
  simp only [btStep, posProj, h1, h2, h3, h4, hsl, hss, hname]

lemma detect_length (lookback : ℕ) (bars : List Bar) :
    (detect_vpa_anomalies lookback bars).length = bars.length := by
  simp [detect_vpa_anomalies]

lemma mkRows_length (data : List CBar) : (mkRows data).length = data.length := by
  simp [mkRows]

lemma mkRows_getD (data : List CBar) {j : ℕ} (h : j < data.length) :
    (mkRows data).getD j dummySRow = mkRowAt data j := by
  have hj : j < (mkRows data).length := by rw [mkRows_length]; exact h
  rw [List.getD_eq_getElem _ _ hj]
  simp [mkRows]

lemma detect_getD (lookback : ℕ) (bars : List Bar) {i : ℕ} (h : i < bars.length) :
    (detect_vpa_anomalies lookback bars).getD i dummyCBar = classifyAt lookback bars i := by
  have hi : i < (detect_vpa_anomalies lookback bars).length := by
    rw [detect_length]; exact h
  rw [List.getD_eq_getElem _ _ hi]
  simp [detect_vpa_anomalies]

/-- A rolling window that lies entirely below index `i` is unchanged when
only bar `i` changes. -/
lemma window_congr (f : Bar → ℚ) {bars1 bars2 : List Bar} {i : ℕ}
    (hlen : bars1.length = bars2.length)
    (hoff : ∀ j, j < bars1.length → j ≠ i → bars1.getD j dummyBar = bars2.getD j dummyBar)
    {a b : ℕ} (hbound : a + b ≤ i) :
    ((bars1.map f).drop a).take b = ((bars2.map f).drop a).take b := by
  apply List.ext_getElem
  · simp [hlen]
  · intro m h1 h2
    have hm1 : m < b ⊓ (bars1.length - a) := by
      simpa [List.length_take, List.length_drop, List.length_map] using h1
    have hamlen : a + m < bars1.length := by omega
    have hamlen2 : a + m < bars2.length := by omega
    have hmb : m < b := by omega
    rw [List.getElem_take, List.getElem_drop, List.getElem_map]
    rw [List.getElem_take, List.getElem_drop, List.getElem_map]
    rw [← List.getD_eq_getElem bars1 dummyBar hamlen, ← List.getD_eq_getElem bars2 dummyBar hamlen2]
    rw [hoff (a + m) hamlen (by omega)]

lemma rollingQuantile_congr (f : Bar → ℚ) {bars1 bars2 : List Bar} {i : ℕ}
    (hlen : bars1.length = bars2.length)
    (hoff : ∀ j, j < bars1.length → j ≠ i → bars1.getD j dummyBar = bars2.getD j dummyBar)
    (q : ℚ) (lookback : ℕ) {j : ℕ} (hji : j < i) :
    rollingQuantile lookback q (bars1.map f) j = rollingQuantile lookback q (bars2.map f) j := by
  unfold rollingQuantile
  split_ifs with hg
  · rw [window_congr f hlen hoff (by omega : (j + 1 - lookback) + lookback ≤ i)]
  · rfl

lemma bars_getD_congr {bars1 bars2 : List Bar} {i : ℕ}
    (hlen : bars1.length = bars2.length)
    (hoff : ∀ j, j < bars1.length → j ≠ i → bars1.getD j dummyBar = bars2.getD j dummyBar)
    {j : ℕ} (hji : j ≠ i) :
    bars1.getD j dummyBar = bars2.getD j dummyBar := by
  by_cases hj : j < bars1.length
  · exact hoff j hj hji
  · rw [List.getD_eq_default _ _ (by omega), List.getD_eq_default _ _ (by omega)]

/-- Classified bar `j` only depends on bars at indices `≤ j`: changing
bar `i` alone leaves every classified row below `i` unchanged. -/
lemma classifyAt_congr (lookback : ℕ) {bars1 bars2 : List Bar} {i : ℕ}
    (hlen : bars1.length = bars2.length)
    (hoff : ∀ j, j < bars1.length → j ≠ i → bars1.getD j dummyBar = bars2.getD j dummyBar)
    {j : ℕ} (hji : j < i) :
    classifyAt lookback bars1 j = classifyAt lookback bars2 j := by
  have hb : bars1.getD j dummyBar = bars2.getD j dummyBar :=
    bars_getD_congr hlen hoff (by omega)
  have h75s := rollingQuantile_congr spreadOf hlen hoff (3/4) lookback hji
  have h25s := rollingQuantile_congr spreadOf hlen hoff (1/4) lookback hji
  have hlv := rollingQuantile_congr Bar.Volume hlen hoff (1/4) lookback hji
  have hhv := rollingQuantile_congr Bar.Volume hlen hoff (3/4) lookback hji
  simp only [classifyAt, hb, h75s, h25s, hlv, hhv]

lemma detect_getD_congr (lookback : ℕ) {bars1 bars2 : List Bar} {i : ℕ}
    (hlen : bars1.length = bars2.length)
    (hoff : ∀ j, j < bars1.length → j ≠ i → bars1.getD j dummyBar = bars2.getD j dummyBar)
    {j : ℕ} (hji : j < i) :
    (detect_vpa_anomalies lookback bars1).getD j dummyCBar =
      (detect_vpa_anomalies lookback bars2).getD j dummyCBar := by
  by_cases hj : j < bars1.length
  · rw [detect_getD lookback bars1 hj, detect_getD lookback bars2 (hlen ▸ hj)]
    exact classifyAt_congr lookback hlen hoff hji
  · rw [List.getD_eq_default _ _ (by rw [detect_length]; omega),
        List.getD_eq_default _ _ (by rw [detect_length]; omega)]

lemma detect_getD_name_congr (lookback : ℕ) {bars1 bars2 : List Bar} {i : ℕ}
    (hlen : bars1.length = bars2.length)
    (hname : (bars1.getD i dummyBar).name = (bars2.getD i dummyBar).name) :
    ((detect_vpa_anomalies lookback bars1).getD i dummyCBar).name =
      ((detect_vpa_anomalies lookback bars2).getD i dummyCBar).name := by
  by_cases hj : i < bars1.length
  · rw [detect_getD lookback bars1 hj, detect_getD lookback bars2 (hlen ▸ hj)]
    exact hname
  · rw [List.getD_eq_default _ _ (by rw [detect_length]; omega),
        List.getD_eq_default _ _ (by rw [detect_length]; omega)]

lemma stateUpTo_posProj_congr (hold_bars : ℕ) (cost initial_equity : ℚ) (mode : Mode)
    {rows1 rows2 : List SRow} (hlen : rows1.length = rows2.length) {i : ℕ}
    (hlow : ∀ j, j < i → rows1.getD j dummySRow = rows2.getD j dummySRow)
    (hname : (rows1.getD i dummySRow).name = (rows2.getD i dummySRow).name) :
    ∀ k, k ≤ i → posProj (stateUpTo hold_bars cost initial_equity mode rows1 k)
      = posProj (stateUpTo hold_bars cost initial_equity mode rows2 k) := by
  intro k
  induction k with
  | zero => intro _; rfl
  | succ k ih =>
    intro hk
    have ihk := ih (by omega)
    simp only [stateUpTo]
    rw [← hlen]
    split_ifs with hglt
    · unfold stepAt
      apply btStep_posProj_congr
      · rw [hlow (k + 1 - 1) (by omega)]
      · rw [hlow (k + 1 - 1) (by omega)]
      · rcases Nat.lt_or_ge (k + 1) i with hlt | hge
        · rw [hlow (k + 1) hlt]
        · have : k + 1 = i := by omega
          rw [this]; exact hname
      · exact ihk
    · exact ihk

/-- C5: two bar series that differ only in bar `i`'s OHLCV fields (same
row label) lead the simulator to identical position decisions on every bar
up to and including bar `i` — the position, bars-held counter, entry date
and trade list after processing bars `1..k` agree for every `k ≤ i`.  Only
decisions on bar `i+1` or later can differ. -/
theorem vpa_C5_signal_lag (lookback hold_bars : ℕ) (cost initial_equity : ℚ) (mode : Mode)
    (bars1 bars2 : List Bar) (i : ℕ)
    (hlen : bars1.length = bars2.length)
    (hoff : ∀ j, j < bars1.length → j ≠ i → bars1.getD j dummyBar = bars2.getD j dummyBar)
    (hname : (bars1.getD i dummyBar).name = (bars2.getD i dummyBar).name) :
    ∀ k, k ≤ i → posProj (stateUpTo hold_bars cost initial_equity mode
        (mkRows (detect_vpa_anomalies lookback bars1)) k)
      = posProj (stateUpTo hold_bars cost initial_equity mode
        (mkRows (detect_vpa_anomalies lookback bars2)) k) := by
  have hdlen : (detect_vpa_anomalies lookback bars1).length
      = (detect_vpa_anomalies lookback bars2).length := by
    rw [detect_length, detect_length, hlen]
  apply stateUpTo_posProj_congr
  · rw [mkRows_length, mkRows_length, hdlen]
  · intro j hji
    by_cases hj : j < (detect_vpa_anomalies lookback bars1).length
    · rw [mkRows_getD _ hj, mkRows_getD _ (hdlen ▸ hj)]
      unfold mkRowAt
      rw [detect_getD_congr lookback hlen hoff hji,
          detect_getD_congr lookback hlen hoff (show j - 1 < i by omega)]
    · rw [List.getD_eq_default _ _ (by rw [mkRows_length]; omega),
          List.getD_eq_default _ _ (by rw [mkRows_length, ← hdlen]; omega)]
  · by_cases hi : i < (detect_vpa_anomalies lookback bars1).length
    · rw [mkRows_getD _ hi, mkRows_getD _ (hdlen ▸ hi)]
      exact detect_getD_name_congr lookback hlen hname
    · rw [List.getD_eq_default _ _ (by rw [mkRows_length]; omega),
          List.getD_eq_default _ _ (by rw [mkRows_length, ← hdlen]; omega)]

/-! ## C2 / C10: trade bookkeeping invariants -/

lemma btStep_flat_trades (hold_bars : ℕ) (cost : ℚ) (mode : Mode) (prev r : SRow)
    (st : BTState) (hpos : st.position = 0) :
    (btStep hold_bars cost mode prev r st).trades = st.trades := by
  simp [btStep, hpos]

lemma btStep_flat_entry (hold_bars : ℕ) (cost : ℚ) (mode : Mode) (prev r : SRow)
    (st : BTState) (hpos : st.position = 0) :
    (btStep hold_bars cost mode prev r st).position = 0 ∨
      ((btStep hold_bars cost mode prev r st).position ≠ 0 ∧
       (btStep hold_bars cost mode prev r st).bars_held = 0 ∧
       (btStep hold_bars cost mode prev r st).entry_date = some r.name) := by
  by_cases hL : prev.sl = true ∧ (mode = Mode.long_only ∨ mode = Mode.long_short)
  · right; refine ⟨?_, ?_, ?_⟩ <;> simp [btStep, hpos, hL]
  · by_cases hS : prev.ss = true ∧ (mode = Mode.short_only ∨ mode = Mode.long_short)
    · right; refine ⟨?_, ?_, ?_⟩ <;> simp [btStep, hpos, hL, hS]
    · left; simp [btStep, hpos, hL, hS]

lemma btStep_open_noexit (hold_bars : ℕ) (cost : ℚ) (mode : Mode) (prev r : SRow)
    (st : BTState) (hpos : ¬ st.position = 0) (hx : ¬ hold_bars ≤ st.bars_held + 1) :
    (btStep hold_bars cost mode prev r st).position = st.position ∧
    (btStep hold_bars cost mode prev r st).bars_held = st.bars_held + 1 ∧
    (btStep hold_bars cost mode prev r st).entry_date = st.entry_date ∧
    (btStep hold_bars cost mode prev r st).trades = st.trades := by
  refine ⟨?_, ?_, ?_, ?_⟩ <;> simp [btStep, hpos, hx]

lemma btStep_open_exit_trades (hold_bars : ℕ) (cost : ℚ) (mode : Mode) (prev r : SRow)
    (st : BTState) (hpos : ¬ st.position = 0) (hx : hold_bars ≤ st.bars_held + 1) :
    (btStep hold_bars cost mode prev r st).trades =
      st.trades ++ [⟨st.entry_date, r.name,
        if st.position = 1 then Direction.LONG else Direction.SHORT,
        st.bars_held + 1⟩] := by
  simp [btStep, hpos, hx]

lemma btStep_open_exit_entry (hold_bars : ℕ) (cost : ℚ) (mode : Mode) (prev r : SRow)
    (st : BTState) (hpos : ¬ st.position = 0) (hx : hold_bars ≤ st.bars_held + 1) :
    (btStep hold_bars cost mode prev r st).position = 0 ∨
      ((btStep hold_bars cost mode prev r st).position ≠ 0 ∧
       (btStep hold_bars cost mode prev r st).bars_held = 0 ∧
       (btStep hold_bars cost mode prev r st).entry_date = some r.name) := by
  by_cases hL : prev.sl = true ∧ (mode = Mode.long_only ∨ mode = Mode.long_short)
  · right; refine ⟨?_, ?_, ?_⟩ <;> simp [btStep, hpos, hx, hL]
  · by_cases hS : prev.ss = true ∧ (mode = Mode.short_only ∨ mode = Mode.long_short)
    · right; refine ⟨?_, ?_, ?_⟩ <;> simp [btStep, hpos, hx, hL, hS]
    · left; simp [btStep, hpos, hx, hL, hS]

lemma simInv_step (hold_bars : ℕ) (hhb : 1 ≤ hold_bars) (cost : ℚ) (mode : Mode)
    (rows : List SRow) (k : ℕ) (hk : k + 1 < rows.length) (st : BTState)
    (hinv : SimInv hold_bars rows k st) :
    SimInv hold_bars rows (k + 1)
      (btStep hold_bars cost mode (rows.getD k dummySRow) (rows.getD (k + 1) dummySRow) st) := by
  obtain ⟨htr, hop⟩ := hinv
  by_cases hpos : st.position = 0
  · -- flat before the bar: no exit can fire, an entry may
    have htr' := btStep_flat_trades hold_bars cost mode
      (rows.getD k dummySRow) (rows.getD (k + 1) dummySRow) st hpos
    constructor
    · intro t ht
      rw [htr'] at ht
      obtain ⟨e, hta, he⟩ := htr t ht
      exact ⟨e, hta, by omega⟩
    · intro hne
      rcases btStep_flat_entry hold_bars cost mode
          (rows.getD k dummySRow) (rows.getD (k + 1) dummySRow) st hpos with h0 | ⟨_, hbh, hed⟩
      · exact absurd h0 hne
      · refine ⟨k + 1, by omega, le_refl _, by omega, hk, hed, by omega, ?_⟩
        intro t ht
        rw [htr'] at ht
        obtain ⟨e2, hta, he2⟩ := htr t ht
        exact ⟨e2, hta, by omega⟩
  · obtain ⟨e, he1, hek, hkeh, helen, hed, hbh, htb⟩ := hop hpos
    by_cases hx : hold_bars ≤ st.bars_held + 1
    · -- the hold period expires on bar k+1: exit exactly at e + hold_bars = k+1
      have hekk : e + hold_bars = k + 1 := by omega
      have htr' := btStep_open_exit_trades hold_bars cost mode
        (rows.getD k dummySRow) (rows.getD (k + 1) dummySRow) st hpos hx
      have htnew : TradeAt hold_bars rows e
          ⟨st.entry_date, (rows.getD (k + 1) dummySRow).name,
            if st.position = 1 then Direction.LONG else Direction.SHORT,
            st.bars_held + 1⟩ := by
        refine ⟨he1, by omega, hed, ?_, ?_⟩
        · simp only [hekk]
        · simp only []
          omega
      constructor
      · intro t ht
        rw [htr'] at ht
        rcases List.mem_append.mp ht with hold | hnew
        · obtain ⟨e2, hta, he2⟩ := htr t hold
          exact ⟨e2, hta, by omega⟩
        · rw [List.mem_singleton.mp hnew]
          exact ⟨e, htnew, by omega⟩
      · intro hne
        rcases btStep_open_exit_entry hold_bars cost mode
            (rows.getD k dummySRow) (rows.getD (k + 1) dummySRow) st hpos hx with h0 | ⟨_, hbh', hed'⟩
        · exact absurd h0 hne
        · refine ⟨k + 1, by omega, le_refl _, by omega, hk, hed', by omega, ?_⟩
          intro t ht
          rw [htr'] at ht
          rcases List.mem_append.mp ht with hold | hnew
          · obtain ⟨e2, hta, he2⟩ := htb t hold
            exact ⟨e2, hta, by omega⟩
          · rw [List.mem_singleton.mp hnew]
            exact ⟨e, htnew, by omega⟩
    · -- still inside the hold period: nothing changes but the counter
      obtain ⟨hp', hb', he', ht'⟩ := btStep_open_noexit hold_bars cost mode
        (rows.getD k dummySRow) (rows.getD (k + 1) dummySRow) st hpos hx
      constructor
      · intro t ht
        rw [ht'] at ht
        obtain ⟨e2, hta, he2⟩ := htr t ht
        exact ⟨e2, hta, by omega⟩
      · intro _
        refine ⟨e, he1, by omega, by omega, helen, by rw [he', hed], by omega, ?_⟩
        intro t ht
        rw [ht'] at ht
        exact htb t ht

lemma simInv_stateUpTo (hold_bars : ℕ) (hhb : 1 ≤ hold_bars) (cost initial_equity : ℚ)
    (mode : Mode) (rows : List SRow) :
    ∀ k, k < rows.length →
      SimInv hold_bars rows k (stateUpTo hold_bars cost initial_equity mode rows k) := by
  intro k
  induction k with
  | zero =>
    intro _
    constructor
    · intro t ht; simp [stateUpTo, initBTState] at ht
    · intro hne; simp [stateUpTo, initBTState] at hne
  | succ k ih =>
    intro hk1
    simp only [stateUpTo]
    rw [if_pos hk1]
    exact simInv_step hold_bars hhb cost mode rows k hk1 _ (ih (by omega))

/-- C2: every trade the simulator records holds for exactly `hold_bars`
bars: it enters on some bar `e ≥ 1` and exits on bar `e + hold_bars`
(so the exit bar index is ≥ the entry bar index plus `hold_bars`, with
equality), and its recorded `bars_held` equals `hold_bars`. -/
theorem vpa_C2_fixed_horizon (hold_bars : ℕ) (cost initial_equity : ℚ) (mode : Mode)
    (data : List CBar) (hhb : 1 ≤ hold_bars) (t : Trade)
    (ht : t ∈ (backtestState hold_bars cost initial_equity mode data).trades) :
    t.bars_held = hold_bars ∧
    ∃ e, 1 ≤ e ∧ e + hold_bars < data.length ∧
      t.entry_date = some ((data.getD e dummyCBar).name) ∧
      t.exit_date = (data.getD (e + hold_bars) dummyCBar).name := by
  have hrl : (mkRows data).length = data.length := mkRows_length data
  rcases Nat.eq_zero_or_pos data.length with hz | hpos0
  · unfold backtestState at ht
    rw [hz] at ht
    simp [stateUpTo, initBTState] at ht
  · have hk : data.length - 1 < (mkRows data).length := by omega
    have hinv := simInv_stateUpTo hold_bars hhb cost initial_equity mode (mkRows data)
      (data.length - 1) hk
    unfold backtestState at ht
    obtain ⟨e, ⟨he1, helen, hed, hex, hbh⟩, _⟩ := hinv.1 t ht
    have hedata : e < data.length := by omega
    have hxdata : e + hold_bars < data.length := by omega
    refine ⟨hbh, e, he1, hxdata, ?_, ?_⟩
    · rw [mkRows_getD data hedata] at hed
      exact hed
    · rw [mkRows_getD data hxdata] at hex
      exact hex

/-- C10: the trade list holds only completed round trips.  Every recorded
exit date is the label of a bar inside the series (never beyond the last
bar), and when a position is still open after the last bar, no trade
record carries its entry date (assuming bar labels are distinct — its
entry was strictly after every recorded exit). -/
theorem vpa_C10_only_completed_trades (hold_bars : ℕ) (cost initial_equity : ℚ)
    (mode : Mode) (data : List CBar) (hhb : 1 ≤ hold_bars)
    (hinj : ∀ a, a < data.length → ∀ b, b < data.length →
      (data.getD a dummyCBar).name = (data.getD b dummyCBar).name → a = b) :
    (∀ t ∈ (backtestState hold_bars cost initial_equity mode data).trades,
      ∃ x, x < data.length ∧ t.exit_date = (data.getD x dummyCBar).name) ∧
    ((backtestState hold_bars cost initial_equity mode data).position ≠ 0 →
      ∀ t ∈ (backtestState hold_bars cost initial_equity mode data).trades,
        t.entry_date ≠ (backtestState hold_bars cost initial_equity mode data).entry_date) := by
  have hrl : (mkRows data).length = data.length := mkRows_length data
  rcases Nat.eq_zero_or_pos data.length with hz | hpos0
  · constructor
    · intro t ht
      unfold backtestState at ht
      rw [hz] at ht
      simp [stateUpTo, initBTState] at ht
    · intro _ t ht
      unfold backtestState at ht
      rw [hz] at ht
      simp [stateUpTo, initBTState] at ht
  · have hk : data.length - 1 < (mkRows data).length := by omega
    have hinv := simInv_stateUpTo hold_bars hhb cost initial_equity mode (mkRows data)
      (data.length - 1) hk
    constructor
    · intro t ht
      unfold backtestState at ht
      obtain ⟨e, ⟨he1, helen, hed, hex, hbh⟩, _⟩ := hinv.1 t ht
      have hxdata : e + hold_bars < data.length := by omega
      refine ⟨e + hold_bars, hxdata, ?_⟩
      rw [mkRows_getD data hxdata] at hex
      exact hex
    · intro hne t ht heq
      unfold backtestState at ht hne heq
      obtain ⟨e', _, _, _, helen', hed', _, htb⟩ := hinv.2 hne
      obtain ⟨e2, ⟨he21, he2len, hed2, _, _⟩, he2b⟩ := htb t ht
      have he2data : e2 < data.length := by omega
      have he'data : e' < data.length := by omega
      rw [hed', hed2] at heq
      have hnames : ((mkRows data).getD e2 dummySRow).name
          = ((mkRows data).getD e' dummySRow).name := by
        exact Option.some.inj heq
      rw [mkRows_getD data he2data, mkRows_getD data he'data] at hnames
      have : e2 = e' := hinj e2 he2data e' he'data hnames
      omega

/-! ## C4: series shorter than `lookback + 1` bars -/

lemma rollingQuantile_incomplete (lookback : ℕ) (q : ℚ) (xs : List ℚ) {j : ℕ}
    (hj : j + 1 < lookback) : rollingQuantile lookback q xs j = none := by
  unfold rollingQuantile
  rw [if_neg]
  rintro ⟨_, h⟩
  omega

lemma classify_signals_incomplete (lookback : ℕ) (bars : List Bar) {j : ℕ}
    (hj : j + 1 < lookback) :
    (classifyAt lookback bars j).Signal_Long = false ∧
    (classifyAt lookback bars j).Signal_Short = false := by
  have hlv : (classifyAt lookback bars j).LowVol = false := by
    show ltQ (bars.getD j dummyBar).Volume
      (rollingQuantile lookback (1/4) (bars.map Bar.Volume) j) = false
    rw [rollingQuantile_incomplete lookback (1/4) _ hj]
    rfl
  have hhv : (classifyAt lookback bars j).HighVol = false := by
    show gtQ (bars.getD j dummyBar).Volume
      (rollingQuantile lookback (3/4) (bars.map Bar.Volume) j) = false
    rw [rollingQuantile_incomplete lookback (3/4) _ hj]
    rfl
  have hSL : (classifyAt lookback bars j).Signal_Long =
      (((classifyAt lookback bars j).IsDown && (classifyAt lookback bars j).WideSpread
          && (classifyAt lookback bars j).LowVol)
        || ((classifyAt lookback bars j).IsDown && (classifyAt lookback bars j).NarrowSpread
          && (classifyAt lookback bars j).HighVol)) := rfl
  have hSS : (classifyAt lookback bars j).Signal_Short =
      (((classifyAt lookback bars j).IsUp && (classifyAt lookback bars j).WideSpread
          && (classifyAt lookback bars j).LowVol)
        || ((classifyAt lookback bars j).IsUp && (classifyAt lookback bars j).NarrowSpread
          && (classifyAt lookback bars j).HighVol)) := rfl
  rw [hSL, hSS, hlv, hhv]
  simp

/-- When no lagged signal inside the series ever fires, the loop stays
flat: the equity list only accumulates copies of the initial equity and no
trade is recorded. -/
lemma stateUpTo_flat (hold_bars : ℕ) (cost initial_equity : ℚ) (mode : Mode)
    (rows : List SRow)
    (hsig : ∀ j, j + 1 < rows.length →
      (rows.getD j dummySRow).sl = false ∧ (rows.getD j dummySRow).ss = false) :
    ∀ k, k < rows.length →
      stateUpTo hold_bars cost initial_equity mode rows k =
        ⟨List.replicate (k + 1) initial_equity, 0, 0, none, []⟩ := by
  intro k
  induction k with
  | zero => intro _; rfl
  | succ k ih =>
    intro hk1
    simp only [stateUpTo]
    rw [if_pos hk1, ih (by omega)]
    obtain ⟨hl, hs⟩ := hsig k hk1
    have hl' : (rows[k]?.getD dummySRow).sl = false := by
      rw [← List.getD_eq_getElem?_getD]; exact hl
    have hs' : (rows[k]?.getD dummySRow).ss = false := by
      rw [← List.getD_eq_getElem?_getD]; exact hs
    unfold stepAt
    simp [btStep, hl, hs, hl', hs', List.replicate_succ]

/-- C4 (amended): on a series with at least one bar and at most `lookback`
bars, no lagged signal can fire (every percentile inside the series is
still undefined), so the simulator runs to completion with a flat equity
curve — one point per bar, all equal to the initial equity — and an empty
trade list. -/
theorem vpa_C4_short_series (lookback hold_bars : ℕ) (cost initial_equity : ℚ)
    (mode : Mode) (bars : List Bar) (h1 : 1 ≤ bars.length) (h2 : bars.length ≤ lookback) :
    (backtestState hold_bars cost initial_equity mode
        (detect_vpa_anomalies lookback bars)).trades = [] ∧
    (backtestState hold_bars cost initial_equity mode
        (detect_vpa_anomalies lookback bars)).equityRev
      = List.replicate bars.length initial_equity := by
  have hdl : (detect_vpa_anomalies lookback bars).length = bars.length :=
    detect_length lookback bars
  have hrl : (mkRows (detect_vpa_anomalies lookback bars)).length = bars.length := by
    rw [mkRows_length, hdl]
  have hsig : ∀ j, j + 1 < (mkRows (detect_vpa_anomalies lookback bars)).length →
      ((mkRows (detect_vpa_anomalies lookback bars)).getD j dummySRow).sl = false ∧
      ((mkRows (detect_vpa_anomalies lookback bars)).getD j dummySRow).ss = false := by
    intro j hj
    have hjd : j < (detect_vpa_anomalies lookback bars).length := by omega
    rw [mkRows_getD _ hjd]
    have hcl : (detect_vpa_anomalies lookback bars).getD j dummyCBar
        = classifyAt lookback bars j := detect_getD lookback bars (by omega)
    constructor
    · show ((detect_vpa_anomalies lookback bars).getD j dummyCBar).Signal_Long = false
      rw [hcl]
      exact (classify_signals_incomplete lookback bars (by omega)).1
    · show ((detect_vpa_anomalies lookback bars).getD j dummyCBar).Signal_Short = false
      rw [hcl]
      exact (classify_signals_incomplete lookback bars (by omega)).2
  have hflat := stateUpTo_flat hold_bars cost initial_equity mode _ hsig
    ((detect_vpa_anomalies lookback bars).length - 1) (by omega)
  unfold backtestState
  rw [hflat]
  constructor
  · rfl
  · have hc : (detect_vpa_anomalies lookback bars).length - 1 + 1 = bars.length := by omega
    rw [hc]

/-! ## C3: the simulator performs no input validation -/

lemma btStep_equity_length (hold_bars : ℕ) (cost : ℚ) (mode : Mode) (prev r : SRow)
    (st : BTState) :
    (btStep hold_bars cost mode prev r st).equityRev.length = st.equityRev.length + 1 := by
  simp [btStep]

lemma stateUpTo_equity_length (hold_bars : ℕ) (cost initial_equity : ℚ) (mode : Mode)
    (rows : List SRow) :
    ∀ k, (stateUpTo hold_bars cost initial_equity mode rows k).equityRev.length
      = 1 + min k (rows.length - 1) := by
  intro k
  induction k with
  | zero => simp [stateUpTo, initBTState]
  | succ k ih =>
    simp only [stateUpTo]
    split_ifs with h
    · unfold stepAt
      rw [btStep_equity_length, ih]
      omega
    · rw [ih]
      omega

/-- C3 (amended): `backtest_vpa` contains no validation of timestamps, bar
fields or configuration values.  Every nonempty input — monotone or not,
duplicated labels or not, any `initial_equity` — is simulated in full: the
call returns a result whose equity curve has exactly one point per bar. -/
theorem vpa_C3_no_validation (hold_bars : ℕ) (cost initial_equity : ℚ) (mode : Mode)
    (data : List CBar) (hne : data ≠ []) :
    ∃ res, backtest_vpa hold_bars cost initial_equity mode data = .ok res ∧
      res.equity.length = data.length := by
  have hni : ¬ data.isEmpty = true := by simp [hne]
  unfold backtest_vpa
  rw [if_neg hni]
  refine ⟨_, rfl, ?_⟩
  show ((backtestState hold_bars cost initial_equity mode data).equityRev.reverse).length
    = data.length
  rw [List.length_reverse]
  unfold backtestState
  rw [stateUpTo_equity_length, mkRows_length]
  have : 1 ≤ data.length := by
    cases data with
    | nil => exact absurd rfl hne
    | cons a l => simp
  omega

/-! ## C8: mode gating -/

lemma btStep_mode_short_congr (hold_bars : ℕ) (cost : ℚ) (prev r : SRow) (st : BTState)
    (hsl : prev.sl = false) :
    btStep hold_bars cost Mode.short_only prev r st
      = btStep hold_bars cost Mode.long_short prev r st := by
  simp [btStep, hsl]

lemma stateUpTo_mode_short_congr (hold_bars : ℕ) (cost initial_equity : ℚ)
    (rows : List SRow) (hnl : ∀ j, (rows.getD j dummySRow).sl = false) :
    ∀ k, stateUpTo hold_bars cost initial_equity Mode.short_only rows k
      = stateUpTo hold_bars cost initial_equity Mode.long_short rows k := by
  intro k
  induction k with
  | zero => rfl
  | succ k ih =>
    simp only [stateUpTo]
    split_ifs with h
    · unfold stepAt
      rw [ih, btStep_mode_short_congr]
      exact hnl (k + 1 - 1)
    · exact ih

lemma btStep_short_only_dir (hold_bars : ℕ) (cost : ℚ) (prev r : SRow) (st : BTState)
    (hp : st.position ≠ 1) :
    (btStep hold_bars cost Mode.short_only prev r st).position ≠ 1 ∧
    ∀ t ∈ (btStep hold_bars cost Mode.short_only prev r st).trades,
      t ∈ st.trades ∨ t.direction = Direction.SHORT := by
  have hdir : (if st.position = 1 then Direction.LONG else Direction.SHORT)
      = Direction.SHORT := by
    rw [if_neg hp]
  by_cases hpos : st.position = 0
  · constructor
    · simp only [btStep]
      simp [hpos]
      split_ifs <;> simp
    · intro t ht
      rw [btStep_flat_trades _ _ _ _ _ _ hpos] at ht
      exact Or.inl ht
  · by_cases hx : hold_bars ≤ st.bars_held + 1
    · constructor
      · simp only [btStep]
        simp [hpos, hx]
        split_ifs <;> simp
      · intro t ht
        rw [btStep_open_exit_trades _ _ _ _ _ _ hpos hx] at ht
        rcases List.mem_append.mp ht with hold | hnew
        · exact Or.inl hold
        · right
          rw [List.mem_singleton.mp hnew, hdir]
    · obtain ⟨hp', _, _, ht'⟩ := btStep_open_noexit hold_bars cost Mode.short_only
        prev r st hpos hx
      constructor
      · rw [hp']; exact hp
      · intro t ht
        rw [ht'] at ht
        exact Or.inl ht

lemma stateUpTo_short_only_dir (hold_bars : ℕ) (cost initial_equity : ℚ)
    (rows : List SRow) :
    ∀ k, (stateUpTo hold_bars cost initial_equity Mode.short_only rows k).position ≠ 1 ∧
      ∀ t ∈ (stateUpTo hold_bars cost initial_equity Mode.short_only rows k).trades,
        t.direction = Direction.SHORT := by
  intro k
  induction k with
  | zero =>
    constructor
    · simp [stateUpTo, initBTState]
    · intro t ht; simp [stateUpTo, initBTState] at ht
  | succ k ih =>
    simp only [stateUpTo]
    split_ifs with h
    · unfold stepAt
      obtain ⟨hp, htr⟩ := btStep_short_only_dir hold_bars cost
        (rows.getD (k + 1 - 1) dummySRow) (rows.getD (k + 1) dummySRow) _ ih.1
      refine ⟨hp, ?_⟩
      intro t ht
      rcases htr t ht with hmem | hdir
      · exact ih.2 t hmem
      · exact hdir
    · exact ih

/-- C8 (amended): every trade a ShortOnly run records has direction SHORT
— unconditionally, for every classified series.  Moreover, on a series
with no Long signal at all, the ShortOnly and LongShort runs coincide, so
there the ShortOnly trade list even equals the LongShort trade list.
(Without that restriction the claimed subset relation fails — see the
counterexample — because a Long entry taken under LongShort occupies the
position and suppresses a Short entry that ShortOnly does take.) -/
theorem vpa_C8_mode_gating_no_long (hold_bars : ℕ) (cost initial_equity : ℚ)
    (data : List CBar) :
    (∀ t ∈ (backtestState hold_bars cost initial_equity Mode.short_only data).trades,
      t.direction = Direction.SHORT) ∧
    ((∀ cb ∈ data, cb.Signal_Long = false) →
      (backtestState hold_bars cost initial_equity Mode.short_only data).trades
        = (backtestState hold_bars cost initial_equity Mode.long_short data).trades) := by
  constructor
  · intro t ht
    unfold backtestState at ht
    exact (stateUpTo_short_only_dir hold_bars cost initial_equity (mkRows data)
      (data.length - 1)).2 t ht
  · intro hnl
    have hrows : ∀ j, ((mkRows data).getD j dummySRow).sl = false := by
      intro j
      by_cases hj : j < data.length
      · rw [mkRows_getD data hj]
        show (data.getD j dummyCBar).Signal_Long = false
        have hmem : data.getD j dummyCBar ∈ data := by
          rw [List.getD_eq_getElem data dummyCBar hj]
          exact List.getElem_mem hj
        exact hnl _ hmem
      · rw [List.getD_eq_default _ _ (by rw [mkRows_length]; omega)]
        rfl
    unfold backtestState
    rw [stateUpTo_mode_short_congr hold_bars cost initial_equity (mkRows data) hrows]

/-! ## C9: metrics on degenerate return series -/

lemma pctChangeFill_length (eq : List ℚ) : (pctChangeFill eq).length = eq.length := by
  cases eq with
  | nil => rfl
  | cons a rest =>
    show (0 :: pctChangeFill.pctChangeGo a rest).length = rest.length + 1
    have hgo : ∀ (p : ℚ) (cs : List ℚ), (pctChangeFill.pctChangeGo p cs).length = cs.length := by
      intro p cs
      induction cs generalizing p with
      | nil => rfl
      | cons c cs' ih => simp [pctChangeFill.pctChangeGo, ih]
    simp [hgo]

lemma pctChangeGo_all_zero_const {p : ℚ} (hp : p ≠ 0) :
    ∀ cs : List ℚ, (∀ r ∈ pctChangeFill.pctChangeGo p cs, r = 0) → cs.getLastD p = p := by
  intro cs
  induction cs generalizing p with
  | nil => intro _; rfl
  | cons c cs' ih =>
    intro hz
    have hc0 : pctc p c = 0 := hz _ (by simp [pctChangeFill.pctChangeGo])
    have hcp : c = p := by
      unfold pctc at hc0
      rw [if_neg hp] at hc0
      have hdiv : c / p = 1 := by linarith
      field_simp at hdiv
      exact hdiv
    have hcz : c ≠ 0 := by rw [hcp]; exact hp
    have htail : ∀ r ∈ pctChangeFill.pctChangeGo c cs', r = 0 := by
      intro r hr
      exact hz r (by simp [pctChangeFill.pctChangeGo, hr])
    rw [List.getLastD_cons, ih hcz htail, hcp]

lemma total_ret_zero (eq : List ℚ) (hh : eq.headD 0 ≠ 0)
    (hz : ∀ r ∈ pctChangeFill eq, r = 0) : total_ret_of eq = 0 := by
  cases eq with
  | nil => exact absurd rfl hh
  | cons a rest =>
    have ha : a ≠ 0 := hh
    have htail : ∀ r ∈ pctChangeFill.pctChangeGo a rest, r = 0 := by
      intro r hr
      exact hz r (by simp [pctChangeFill, hr])
    have hlast : rest.getLastD a = a := pctChangeGo_all_zero_const ha rest htail
    unfold total_ret_of
    rw [List.getLastD_cons, hlast]
    show a / (a :: rest).headD 0 - 1 = 0
    simp [ha]

lemma sum_sq_zero : ∀ xs : List ℚ, (∀ x ∈ xs, 0 ≤ x) → xs.sum = 0 → ∀ x ∈ xs, x = 0 := by
  intro xs
  induction xs with
  | nil => intro _ _ x hx; simp at hx
  | cons a l ih =>
    intro hpos hsum x hx
    have hsl : 0 ≤ l.sum := List.sum_nonneg (fun y hy => hpos y (by simp [hy]))
    have ha : 0 ≤ a := hpos a (by simp)
    have hsum' : a + l.sum = 0 := by simpa using hsum
    have ha0 : a = 0 := by linarith
    have hl0 : l.sum = 0 := by linarith
    rcases List.mem_cons.mp hx with rfl | hxl
    · exact ha0
    · exact ih (fun y hy => hpos y (by simp [hy])) hl0 x hxl

lemma sampleVar_zero_all_eq {xs : List ℚ} (h2 : 2 ≤ xs.length) (hv : sampleVar xs = 0) :
    ∀ x ∈ xs, x = listMean xs := by
  have hden : ((xs.length : ℚ) - 1) ≠ 0 := by
    have h2' : (2 : ℚ) ≤ (xs.length : ℚ) := by exact_mod_cast h2
    intro h
    linarith
  unfold sampleVar at hv
  have hsum : (xs.map (fun x => (x - listMean xs) ^ 2)).sum = 0 := by
    rcases div_eq_zero_iff.mp hv with h | h
    · exact h
    · exact absurd h hden
  intro x hx
  have hall := sum_sq_zero (xs.map (fun x => (x - listMean xs) ^ 2))
    (by intro y hy; obtain ⟨z, _, rfl⟩ := List.mem_map.mp hy; exact sq_nonneg _) hsum
  have hx2 : (x - listMean xs) ^ 2 = 0 := hall _ (List.mem_map_of_mem _ hx)
  have := sq_eq_zero_iff.mp hx2
  linarith

lemma rets_all_zero (eq : List ℚ) (hne : eq ≠ [])
    (hv : sampleVar (pctChangeFill eq) = 0) : ∀ r ∈ pctChangeFill eq, r = 0 := by
  rcases Nat.lt_or_ge (pctChangeFill eq).length 2 with hlt | hge
  · cases eq with
    | nil => exact absurd rfl hne
    | cons a rest =>
      cases rest with
      | nil =>
        intro r hr
        simp [pctChangeFill, pctChangeFill.pctChangeGo] at hr
        exact hr
      | cons b rest' =>
        exfalso
        rw [pctChangeFill_length] at hlt
        simp at hlt
        omega
  · have hall := sampleVar_zero_all_eq hge hv
    have hhead : (0 : ℚ) ∈ pctChangeFill eq := by
      cases eq with
      | nil => exact absurd rfl hne
      | cons a rest => simp [pctChangeFill]
    have hmu : (0 : ℚ) = listMean (pctChangeFill eq) := hall 0 hhead
    intro r hr
    rw [hall r hr, ← hmu]

lemma cagr_total_zero (eq rets : List ℚ) (h : total_ret_of eq = 0) :
    cagr_of eq rets = 0 := by
  unfold cagr_of
  split_ifs
  · rw [h]
    norm_num [Real.one_rpow]
  · rfl

lemma sharpe_var_zero (eq rets : List ℚ) (hv : sampleVar rets = 0) :
    sharpe_of eq rets = 0 := by
  unfold sharpe_of vol_of stdSample
  rw [hv]
  split_ifs with h2
  · norm_num [Real.sqrt_zero]
  · rfl

/-- C9 (amended): on every nonempty equity curve with nonzero starting
point whose strategy-return series (`pct_change`, NaN filled with 0) has
zero sample variance, `calc_metrics` returns a record — no error, no NaN — 
with `CAGR = 0` (the equity is necessarily constant, so the total return
is 0 and `1 ^ (252/n) - 1 = 0`) and `Sharpe = 0` (the volatility is 0, or
NaN for a single point, and both fail the `vol > 0` guard). -/
theorem vpa_C9_zero_variance (eq : List ℚ) (trades : List Trade)
    (hne : eq ≠ []) (hh : eq.headD 0 ≠ 0)
    (hv : sampleVar (pctChangeFill eq) = 0) :
    ∃ m, calc_metrics eq (pctChangeFill eq) trades = .ok m ∧ m.CAGR = 0 ∧ m.Sharpe = 0 := by
  have hz : ∀ r ∈ pctChangeFill eq, r = 0 := rets_all_zero eq hne hv
  have htot : total_ret_of eq = 0 := total_ret_zero eq hh hz
  have hni : ¬ eq.isEmpty = true := by simp [hne]
  unfold calc_metrics
  rw [if_neg hni]
  exact ⟨_, rfl, cagr_total_zero _ _ htot, sharpe_var_zero _ _ hv⟩

/-! ## C1: which window do the regime flags use? -/

lemma window_take_drop (xs : List ℚ) (lookback i : ℕ) (h : lookback ≤ i + 1) :
    (xs.drop (i + 1 - lookback)).take lookback = (xs.take (i + 1)).drop (i + 1 - lookback) := by
  rw [List.take_drop]
  congr 2
  omega

lemma gtQ_rolling_eq_spec (lookback i : ℕ) (x : ℚ) (xs : List ℚ) :
    gtQ x (rollingQuantile lookback (3/4) xs i) =
      (if 1 ≤ lookback ∧ lookback - 1 ≤ i then
        match quantileLinear (3/4) ((xs.take (i + 1)).drop (i + 1 - lookback)) with
        | some p => decide (p < x)
        | none => false
      else false) := by
  unfold rollingQuantile
  by_cases hg : 1 ≤ lookback ∧ lookback ≤ i + 1
  · rw [if_pos hg, if_pos (by omega), window_take_drop xs lookback i hg.2]
    cases quantileLinear (3/4) ((xs.take (i + 1)).drop (i + 1 - lookback)) <;> rfl
  · rw [if_neg hg, if_neg (by omega)]
    rfl

lemma ltQ_rolling_eq_spec (lookback i : ℕ) (x : ℚ) (xs : List ℚ) :
    ltQ x (rollingQuantile lookback (1/4) xs i) =
      (if 1 ≤ lookback ∧ lookback - 1 ≤ i then
        match quantileLinear (1/4) ((xs.take (i + 1)).drop (i + 1 - lookback)) with
        | some p => decide (x < p)
        | none => false
      else false) := by
  unfold rollingQuantile
  by_cases hg : 1 ≤ lookback ∧ lookback ≤ i + 1
  · rw [if_pos hg, if_pos (by omega), window_take_drop xs lookback i hg.2]
    cases quantileLinear (1/4) ((xs.take (i + 1)).drop (i + 1 - lookback)) <;> rfl
  · rw [if_neg hg, if_neg (by omega)]
    rfl

/-- C1 (amended): all four regime flags are strict comparisons against the
25th/75th linear-interpolation percentiles of the *closed* trailing window
of the last `lookback` bars ending at — and including — bar `i`.  They are
defined (as plain booleans) from index `lookback - 1` on, and are `false`
(not null) for `i < lookback - 1`, where the rolling percentile is still
undefined. -/
theorem vpa_C1_regime_flags (lookback : ℕ) (bars : List Bar) (i : ℕ) :
    (classifyAt lookback bars i).WideSpread = specWideSpread lookback bars i ∧
    (classifyAt lookback bars i).NarrowSpread = specNarrowSpread lookback bars i ∧
    (classifyAt lookback bars i).LowVol = specLowVol lookback bars i ∧
    (classifyAt lookback bars i).HighVol = specHighVol lookback bars i := by
  refine ⟨?_, ?_, ?_, ?_⟩
  · show gtQ (spreadOf (bars.getD i dummyBar))
      (rollingQuantile lookback (3/4) (bars.map spreadOf) i) = _
    rw [gtQ_rolling_eq_spec]
    rfl
  · show ltQ (spreadOf (bars.getD i dummyBar))
      (rollingQuantile lookback (1/4) (bars.map spreadOf) i) = _
    rw [ltQ_rolling_eq_spec]
    rfl
  · show ltQ (bars.getD i dummyBar).Volume
      (rollingQuantile lookback (1/4) (bars.map Bar.Volume) i) = _
    rw [ltQ_rolling_eq_spec]
    rfl
  · show gtQ (bars.getD i dummyBar).Volume
      (rollingQuantile lookback (3/4) (bars.map Bar.Volume) i) = _
    rw [gtQ_rolling_eq_spec]
    rfl

/-! ## Concrete series used by the counterexamples and witnesses -/

/-- C1 counterexample: with `lookback = 2`, at `i = 2` the code computes
`WideSpread = true` (window `{spread 1, spread 2}` including the bar), while
the claimed half-open window `[0, 2)` yields `false` — and at `i = 1 <
lookback` the claim says the flag is null while the code has already
computed a boolean. -/
theorem vpa_C1_counterexample :
    (classifyAt 2 c1Bars 2).WideSpread = true ∧
    claimWideSpread 2 c1Bars 2 = some false ∧
    claimWideSpread 2 c1Bars 1 = none ∧
    (classifyAt 2 c1Bars 1).WideSpread = false := by
  with_unfolding_all decide

/-- C2 witness: a concrete run (lookback 2, hold 2, long-short) produces
the trade entered on bar 2 and exited on bar 4. -/
theorem vpa_C2_witness :
    1 ≤ 2 ∧
    (⟨some 2, 4, Direction.LONG, 2⟩ : Trade) ∈
      (backtestState 2 (1/1000) 10000 Mode.long_short
        (detect_vpa_anomalies 2 demoBars2)).trades ∧
    ((⟨some 2, 4, Direction.LONG, 2⟩ : Trade).bars_held = 2 ∧
      ∃ e, 1 ≤ e ∧ e + 2 < (detect_vpa_anomalies 2 demoBars2).length ∧
        (⟨some 2, 4, Direction.LONG, 2⟩ : Trade).entry_date
          = some (((detect_vpa_anomalies 2 demoBars2).getD e dummyCBar).name) ∧
        (⟨some 2, 4, Direction.LONG, 2⟩ : Trade).exit_date
          = ((detect_vpa_anomalies 2 demoBars2).getD (e + 2) dummyCBar).name) :=
  ⟨by norm_num, by with_unfolding_all decide,
    vpa_C2_fixed_horizon 2 (1/1000) 10000 Mode.long_short
      (detect_vpa_anomalies 2 demoBars2) (by norm_num) _
      (by with_unfolding_all decide)⟩

/-- C3 counterexample: a series with duplicate timestamps and a negative
initial equity is accepted and fully simulated — no validation error of
any kind is raised. -/
theorem vpa_C3_counterexample :
    backtest_vpa 5 (1/1000) (-5) Mode.long_only (detect_vpa_anomalies 20 dupBars)
      = .ok ⟨[-5, -5], [0, 0], []⟩ := by
  with_unfolding_all rfl

/-- C3 witness: the no-validation theorem applied to the malformed input. -/
theorem vpa_C3_witness :
    detect_vpa_anomalies 20 dupBars ≠ [] ∧
    ∃ res, backtest_vpa 5 (1/1000) (-5) Mode.long_only
        (detect_vpa_anomalies 20 dupBars) = .ok res ∧
      res.equity.length = (detect_vpa_anomalies 20 dupBars).length :=
  ⟨by with_unfolding_all decide,
    vpa_C3_no_validation 5 (1/1000) (-5) Mode.long_only _
      (by with_unfolding_all decide)⟩

/-- C4 counterexample: with exactly `lookback` bars (fewer than
`lookback + 1`) the final bar's flags are computed, not undefined — here
`HighVol = true`; and on the empty series the simulator raises (the pandas
length-mismatch `ValueError`) instead of returning a flat result. -/
theorem vpa_C4_counterexample :
    ((detect_vpa_anomalies 2 shortBars).getD 1 dummyCBar).HighVol = true ∧
    backtest_vpa 2 (1/1000) 10000 Mode.long_only (detect_vpa_anomalies 2 ([] : List Bar))
      = .error "Length of values (1) does not match length of index (0)" := by
  constructor
  · with_unfolding_all decide
  · rfl

/-- C4 witness: a 2-bar series under lookback 2 runs flat. -/
theorem vpa_C4_witness :
    1 ≤ shortBars.length ∧ shortBars.length ≤ 2 ∧
    ((backtestState 2 (1/1000) 10000 Mode.long_only
        (detect_vpa_anomalies 2 shortBars)).trades = [] ∧
      (backtestState 2 (1/1000) 10000 Mode.long_only
        (detect_vpa_anomalies 2 shortBars)).equityRev
        = List.replicate shortBars.length 10000) :=
  ⟨by with_unfolding_all decide, by with_unfolding_all decide,
    vpa_C4_short_series 2 2 (1/1000) 10000 Mode.long_only shortBars
      (by with_unfolding_all decide) (by with_unfolding_all decide)⟩

/-- C5 witness: changing bar 3's OHLCV leaves every position decision up
to bar 3 unchanged. -/
theorem vpa_C5_witness :
    demoBars2.length = demoBars2b.length ∧
    (∀ j, j < demoBars2.length → j ≠ 3 →
      demoBars2.getD j dummyBar = demoBars2b.getD j dummyBar) ∧
    (demoBars2.getD 3 dummyBar).name = (demoBars2b.getD 3 dummyBar).name ∧
    ∀ k, k ≤ 3 → posProj (stateUpTo 2 (1/1000) 10000 Mode.long_short
        (mkRows (detect_vpa_anomalies 2 demoBars2)) k)
      = posProj (stateUpTo 2 (1/1000) 10000 Mode.long_short
        (mkRows (detect_vpa_anomalies 2 demoBars2b)) k) :=
  ⟨by with_unfolding_all decide, by with_unfolding_all decide,
    by with_unfolding_all decide,
    vpa_C5_signal_lag 2 2 (1/1000) 10000 Mode.long_short demoBars2 demoBars2b 3
      (by with_unfolding_all decide) (by with_unfolding_all decide)
      (by with_unfolding_all decide)⟩

/-- C6 witness: a short position whose hold expires on a bar with both
lagged signals set exits and re-enters Long on that same bar. -/
theorem vpa_C6_witness :
    ((⟨[10000], -1, 1, some 3, []⟩ : BTState).position ≠ 0) ∧
    (2 ≤ (⟨[10000], -1, 1, some 3, []⟩ : BTState).bars_held + 1) ∧
    (⟨2, 0, true, true⟩ : SRow).sl = true ∧ (⟨2, 0, true, true⟩ : SRow).ss = true ∧
    (btStep 2 (1/1000) Mode.long_short ⟨2, 0, true, true⟩ ⟨4, 0, false, false⟩
      ⟨[10000], -1, 1, some 3, []⟩).position = 1 :=
  ⟨by with_unfolding_all decide, by with_unfolding_all decide, rfl, rfl,
    (vpa_C6_exit_then_entry 2 (1/1000) ⟨2, 0, true, true⟩ ⟨4, 0, false, false⟩
      ⟨[10000], -1, 1, some 3, []⟩ (by with_unfolding_all decide)
      (by with_unfolding_all decide) rfl rfl).1⟩

/-- C7 witness: the mutually-exclusive-categories theorem applied to a
concrete classified bar (bar 1 of `demoBars2`, a FakeDown). -/
theorem vpa_C7_witness :
    classifyAt 2 demoBars2 1 ∈ detect_vpa_anomalies 2 demoBars2 ∧
    catCount (classifyAt 2 demoBars2 1) ≤ 1 :=
  ⟨by with_unfolding_all decide,
    vpa_C7_categories_exclusive 2 demoBars2 _ (by with_unfolding_all decide)⟩

/-- C8 counterexample: on `demoBars2` the ShortOnly run records the short
trade entered on bar 3 and exited on bar 5, but the LongShort run — whose
Long entry from bar 1's signal occupies the position over bars 2..4 — 
records no such trade, so the ShortOnly trade list is *not* a subset of
the LongShort direction-SHORT trades. -/
theorem vpa_C8_counterexample :
    (⟨some 3, 5, Direction.SHORT, 2⟩ : Trade) ∈
      (backtestState 2 (1/1000) 10000 Mode.short_only
        (detect_vpa_anomalies 2 demoBars2)).trades ∧
    (⟨some 3, 5, Direction.SHORT, 2⟩ : Trade) ∉
      (backtestState 2 (1/1000) 10000 Mode.long_short
        (detect_vpa_anomalies 2 demoBars2)).trades := by
  with_unfolding_all decide

/-- C8 witness: the ShortOnly run on `noLongBars` records only SHORT
trades, and — that series carrying no Long signal — coincides with the
LongShort run. -/
theorem vpa_C8_witness :
    (∀ cb ∈ detect_vpa_anomalies 2 noLongBars, cb.Signal_Long = false) ∧
    ((∀ t ∈ (backtestState 2 (1/1000) 10000 Mode.short_only
        (detect_vpa_anomalies 2 noLongBars)).trades,
       t.direction = Direction.SHORT) ∧
     ((∀ cb ∈ detect_vpa_anomalies 2 noLongBars, cb.Signal_Long = false) →
       (backtestState 2 (1/1000) 10000 Mode.short_only
          (detect_vpa_anomalies 2 noLongBars)).trades
         = (backtestState 2 (1/1000) 10000 Mode.long_short
          (detect_vpa_anomalies 2 noLongBars)).trades)) :=
  ⟨by with_unfolding_all decide,
    vpa_C8_mode_gating_no_long 2 (1/1000) 10000 (detect_vpa_anomalies 2 noLongBars)⟩

/-- C9 counterexample: with `n_points = 0` (empty frame) the metrics
calculator does not return `CAGR = 0` — it fails on `eq.iloc[-1]` before
the `n_days > 0` guard is ever consulted. -/
theorem vpa_C9_counterexample :
    calc_metrics [] [] [] = .error "single positional indexer is out-of-bounds" := rfl

/-- C9 witness: a constant equity curve has zero-variance returns and gets
`CAGR = 0`, `Sharpe = 0`. -/
theorem vpa_C9_witness :
    ([5, 5, 5] : List ℚ) ≠ [] ∧ ([5, 5, 5] : List ℚ).headD 0 ≠ 0 ∧
    sampleVar (pctChangeFill [5, 5, 5]) = 0 ∧
    ∃ m, calc_metrics [5, 5, 5] (pctChangeFill [5, 5, 5]) [] = .ok m ∧
      m.CAGR = 0 ∧ m.Sharpe = 0 :=
  ⟨by with_unfolding_all decide, by with_unfolding_all decide,
    by with_unfolding_all decide,
    vpa_C9_zero_variance [5, 5, 5] [] (by with_unfolding_all decide)
      (by with_unfolding_all decide) (by with_unfolding_all decide)⟩

/-- C10 witness: the `demoBars2` long-short run ends with an open Long
position entered on bar 5; its trade list still only contains the
completed bar-2-to-bar-4 round trip. -/
theorem vpa_C10_witness :
    1 ≤ 2 ∧
    (∀ a, a < (detect_vpa_anomalies 2 demoBars2).length →
      ∀ b, b < (detect_vpa_anomalies 2 demoBars2).length →
      ((detect_vpa_anomalies 2 demoBars2).getD a dummyCBar).name
        = ((detect_vpa_anomalies 2 demoBars2).getD b dummyCBar).name → a = b) ∧
    ((∀ t ∈ (backtestState 2 (1/1000) 10000 Mode.long_short
        (detect_vpa_anomalies 2 demoBars2)).trades,
      ∃ x, x < (detect_vpa_anomalies 2 demoBars2).length ∧
        t.exit_date = ((detect_vpa_anomalies 2 demoBars2).getD x dummyCBar).name) ∧
     ((backtestState 2 (1/1000) 10000 Mode.long_short
        (detect_vpa_anomalies 2 demoBars2)).position ≠ 0 →
      ∀ t ∈ (backtestState 2 (1/1000) 10000 Mode.long_short
        (detect_vpa_anomalies 2 demoBars2)).trades,
        t.entry_date ≠ (backtestState 2 (1/1000) 10000 Mode.long_short
          (detect_vpa_anomalies 2 demoBars2)).entry_date)) :=
  ⟨by norm_num, by with_unfolding_all decide,
    vpa_C10_only_completed_trades 2 (1/1000) 10000 Mode.long_short
      (detect_vpa_anomalies 2 demoBars2) (by norm_num)
      (by with_unfolding_all decide)⟩
